import Mathlib

/-!
# mailserver: lifecycle coordinator, delivery path and debug wiring

A shallow embedding of `main.go`, `smtp.go` and `store.go`.

* Go `error` interface values are `Option GoError`; `none` is `nil`.
* A blocking call either returns or never does (`Call`).
* The `select` of `cancellableRun` takes the case that fires as an input (`Race`).
* The `for err := range aggregaCh` loop of `run` is a fold of the loop body over the
  outcomes that arrive; the channel is never closed, so when they run out before
  `break` or `panic` the loop is blocked for good.
* Pointers (`*email`, `*imapmemserver.User`) are indices into explicit heaps.
-/

namespace Mailserver

/-! ## Errors -/

/-- A non-nil Go error: built without `%w` (`plain`) or wrapping another error (`wrap`). -/
inductive GoError where
  | plain (msg : String)
  | wrap (msg : String) (inner : GoError)
  deriving DecidableEq, Repr

/-- The method `Error()`. -/
def GoError.Error : GoError → String
  | .plain msg => msg
  | .wrap msg _ => msg

/-- The method `Unwrap()`: the wrapped error, if there is one. -/
def GoError.Unwrap : GoError → Option GoError
  | .plain _ => none
  | .wrap _ inner => some inner

/-- A value of the interface type `error`; `none` is `nil`. -/
abbrev Err := Option GoError

/-- The standard `strings.Join(elems, sep)`. -/
def stringsJoin : List String → String → String
  | [], _ => ""
  | [a], _ => a
  | a :: b :: rest, sep => a ++ sep ++ stringsJoin (b :: rest) sep

/-! ## `run`, lines 213-225: the combined result -/

/-- The loop of `main.go:215-219`: `diagnostics = append(diagnostics, err.Error())` for
every non-nil `err`, in the order of `results`. -/
def collectDiagnostics (results : List Err) : List String :=
  results.foldl
    (fun diagnostics err =>
      match err with
      | some e => diagnostics ++ [e.Error]
      | none => diagnostics)
    []

/-- The end of `run` (`main.go:213-225`): the value returned once the aggregation loop
has been left with `results`. -/
def runResult (results : List Err) : Err :=
  if results.length > 0 then
    let diagnostics := collectDiagnostics results
    if diagnostics.length > 0 then
      some (.plain ("errors encountered: " ++ stringsJoin diagnostics "\n"))
    else
      none
  else
    none

/-- The messages of the non-nil outcomes, in order: the diagnostics as the
specification words them. -/
def nonNilMessages (results : List Err) : List String :=
  results.filterMap (fun err => err.map GoError.Error)

/-! ## `cancellableRun` and `runAsync` -/

/-- What a blocking, zero-argument operation does once invoked: it returns an error
value, or it never returns. -/
inductive Call where
  | returns (err : Err)
  | hangs
  deriving DecidableEq, Repr

/-- What a runner does that can be observed from outside. -/
inductive Event where
  | logged (line : String)
  | startInvoked
  | stopInvoked
  deriving DecidableEq, Repr

/-- A closure `func() error` once run: the events it causes, in program order, and how
it ends. -/
structure Thunk where
  events : List Event
  ret : Call
  deriving DecidableEq, Repr

/-- The case of the `select` in `cancellableRun` that fires. -/
inductive Race where
  /-- The case `<-ctx.Done()`: cancellation is observed before a result of `f` is read. -/
  | cancelFirst
  /-- The case `err := <-errCh`: no cancellation is observed before the result of `f`;
  when `f` never returns the `select` stays blocked. -/
  | startFirst
  deriving DecidableEq, Repr

/-- The function `cancellableRun` (`main.go:250-262`). `f` is run on its own goroutine
in both cases, so its events always happen; across goroutines only membership in
`events` is meaningful, not the position. -/
def cancellableRun (race : Race) (f stop : Thunk) : Thunk :=
  match race with
  | .cancelFirst => { events := f.events ++ stop.events, ret := stop.ret }
  | .startFirst => { events := f.events, ret := f.ret }

/-- The first closure of `runAsync` (`main.go:232-238`). -/
def startClosure (name : String) (start : Call) : Thunk :=
  { events := [.logged ("Starting " ++ name), .startInvoked]
    ret :=
      match start with
      | .returns (some err) =>
        .returns (some (.wrap ("failed to start " ++ name ++ ": " ++ err.Error) err))
      | .returns none => .returns none
      | .hangs => .hangs }

/-- The second closure of `runAsync` (`main.go:238-244`). -/
def stopClosure (name : String) (stop : Call) : Thunk :=
  { events := [.logged ("Stopping " ++ name), .stopInvoked]
    ret :=
      match stop with
      | .returns (some err) =>
        .returns (some (.wrap ("failed to stop " ++ name ++ ": " ++ err.Error) err))
      | .returns none => .returns none
      | .hangs => .hangs }

/-- The function `runAsync` (`main.go:228-248`): `ret` is what is sent on the returned
channel; `hangs` means that nothing is ever sent. -/
def runAsync (race : Race) (name : String) (start stop : Call) : Thunk :=
  cancellableRun race (startClosure name start) (stopClosure name stop)

/-! ## The services of `run` -/

/-- The fields of `settings` (`main.go:41-55`). -/
structure Settings where
  smtpAddr : String
  imapAddr : String
  imapsAddr : String
  tlsCert : String
  tlsKey : String
  username : String
  password : String
  domain : String
  insecureAuth : Bool
  debug : Bool
  deriving DecidableEq, Repr

/-- The blocking calls into the protocol engines (go-smtp, go-imap) that the closures
of `run` make; their behaviour is an input. -/
structure Engines where
  /-- The call `smtpServer.ListenAndServe()`. -/
  smtpListenAndServe : Call
  /-- The call `smtpServer.Shutdown(shutdownCtx)`, by the timeout of `shutdownCtx` in
  seconds. -/
  smtpShutdown : Nat → Call
  /-- The call `imapServer.ListenAndServe(addr)`. -/
  imapListenAndServe : String → Call
  /-- The call `imapServer.ListenAndServeTLS(addr)`. -/
  imapListenAndServeTLS : String → Call
  /-- The call `imapServer.Close()` at `main.go:176`. -/
  imapClose : Call
  /-- The call `imapServer.Close()` at `main.go:184`. -/
  imapsClose : Call

/-- The three arguments `name, start, stop` of one `runAsync` call. -/
structure Service where
  name : String
  start : Call
  stop : Call
  deriving DecidableEq, Repr

/-- The `runAsync` calls of `run` (`main.go:164-187`), in program order. -/
def services (ss : Settings) (eng : Engines) : List Service :=
  let errChs : List Service := []
  let errChs := errChs ++ [⟨"SMTP server", eng.smtpListenAndServe, eng.smtpShutdown 5⟩]
  let errChs := errChs ++ [⟨"IMAP serer", eng.imapListenAndServe ss.imapAddr, eng.imapClose⟩]
  if ss.imapsAddr ≠ "" then
    errChs ++ [⟨"IMAPs server", eng.imapListenAndServeTLS ss.imapsAddr, eng.imapsClose⟩]
  else
    errChs

/-- One runner per service, each with the case its `select` takes. -/
def startAll : List (Service × Race) → List Thunk
  | [] => []
  | (svc, race) :: rest => runAsync race svc.name svc.start svc.stop :: startAll rest

/-- The values that are ever sent to `aggregaCh` (`main.go:189-194`), listed by
service; the order of arrival is any permutation of this list. -/
def emitted : List Thunk → List Err
  | [] => []
  | t :: rest =>
    match t.ret with
    | .returns err => err :: emitted rest
    | .hangs => emitted rest

/-! ## The aggregation loop of `run` -/

/-- The error a context reports once it is done. -/
inductive CtxErr where
  | canceled
  | deadlineExceeded
  deriving DecidableEq, Repr

/-- The state of the context made by `context.WithCancel` at `main.go:159`: `err` is
`none` until the context is done. -/
structure CancelCtx where
  err : Option CtxErr
  deriving DecidableEq, Repr

/-- Whether `ctx.Done()` is closed. -/
def CancelCtx.done (c : CancelCtx) : Bool := c.err.isSome

/-- The `cancel` function returned by `context.WithCancel` of the standard library
(`trigger()` in section 4.1 of the specification): a context that is already done is
left as it is, otherwise it becomes done with `context.Canceled`. -/
def CancelCtx.cancel (c : CancelCtx) : CancelCtx :=
  if c.err.isSome then c else { err := some .canceled }

/-- Where the loop `for err := range aggregaCh` stands. -/
inductive LoopStatus where
  /-- Waiting for the next value of `aggregaCh`. -/
  | receiving
  /-- Left through `break`. -/
  | stopped
  /-- Ended by `panic`. -/
  | panicked (msg : String)
  deriving DecidableEq, Repr

/-- The variables of the aggregation loop. -/
structure AggState where
  results : List Err
  ctx : CancelCtx
  status : LoopStatus
  deriving DecidableEq, Repr

/-- The state before the first iteration (`main.go:197`), for the context as it is. -/
def AggState.init (ctx : CancelCtx) : AggState :=
  { results := [], ctx := ctx, status := .receiving }

/-- One iteration of the loop (`main.go:199-211`) on the received value `err`. -/
def loopBody (want : Nat) (s : AggState) (err : Err) : AggState :=
  let results := s.results ++ [err]
  let ctx := s.ctx.cancel
  if results.length == want then
    { results := results, ctx := ctx, status := .stopped }
  else if results.length > want then
    { results := results, ctx := ctx,
      status := .panicked ("encountered more than " ++ toString want ++ " results. Bug?") }
  else
    { results := results, ctx := ctx, status := .receiving }

/-- The loop over the values that arrive on `aggregaCh`. The channel is never closed:
when the arrivals run out the loop is still `receiving`, blocked for good. -/
def aggregate (want : Nat) : AggState → List Err → AggState
  | s, [] => s
  | s, err :: rest =>
    let s1 := loopBody want s err
    if s1.status = .receiving then aggregate want s1 rest else s1

/-- The state after each iteration that is executed, in order. -/
def aggregateTrace (want : Nat) : AggState → List Err → List AggState
  | _, [] => []
  | s, err :: rest =>
    let s1 := loopBody want s err
    s1 :: (if s1.status = .receiving then aggregateTrace want s1 rest else [])

/-- How `run` ends once the services are started. -/
inductive RunEnd where
  | returned (err : Err)
  | panicked (msg : String)
  | blocked
  deriving DecidableEq, Repr

/-- The function `run` from `main.go:196` on: the loop over the arrivals, then the combined result. -/
def runCollect (want : Nat) (ctx : CancelCtx) (arrivals : List Err) : RunEnd :=
  let s := aggregate want (AggState.init ctx) arrivals
  match s.status with
  | .stopped => .returned (runResult s.results)
  | .panicked msg => .panicked msg
  | .receiving => .blocked

/-! ## `store.go` and `smtp.go` -/

/-- The content of a message: any sequence of bytes, as a Go `string` or `[]byte`
holds it. -/
abbrev Bytes := List (Fin 256)

/-- The struct `email` (`store.go:24-28`). -/
structure Email where
  from_ : String
  to_ : String
  data : Bytes
  deriving DecidableEq, Repr

/-- An `imapmemserver.User` as far as this program uses it: its mailboxes by name, each
the list of message literals it holds, oldest first. -/
structure User where
  mailboxes : String → Option (List Bytes)

/-- The standard `strings.TrimRight(s, "/")`, which `Create` applies to the name with
the mailbox delimiter. -/
def trimRightSlash (s : String) : String :=
  String.mk (s.toList.reverse.dropWhile (fun c => c == '/')).reverse

/-- The library call `user.Create(name, nil)` on a user: trailing delimiters of the name
are dropped; a mailbox that exists is an error, otherwise an empty one is made. -/
def User.Create (u : User) (name : String) : User × Err :=
  let name := trimRightSlash name
  match u.mailboxes name with
  | some _ => (u, some (.plain "imap: NO [ALREADYEXISTS] Mailbox already exists"))
  | none => ({ mailboxes := fun m => if m = name then some [] else u.mailboxes m }, none)

/-- The library call `user.Append(mailbox, literal, options)`: a mailbox that does not
exist is an error, otherwise everything read from the literal becomes the last message. -/
def User.Append (u : User) (mailbox : String) (literal : Bytes) : User × Err :=
  match u.mailboxes mailbox with
  | none => (u, some (.plain "imap: NO [TRYCREATE] No such mailbox"))
  | some msgs =>
    ({ mailboxes := fun m => if m = mailbox then some (msgs ++ [literal]) else u.mailboxes m },
      none)

/-- A slice `[]*email`. -/
abbrev EmailPtrs := List Nat

/-- The struct `inbox` (`store.go:18-21`); `user` and the elements of `emails` are
pointers. -/
structure Inbox where
  user : Nat
  emails : EmailPtrs
  deriving DecidableEq, Repr

/-- The memory the delivery path works on: the `email` cells and the users behind
their pointers, and the map `store.inboxes`. Each `*inbox` of the map is made by
`AddUser` and held by one key only, so the map holds the inbox itself. -/
structure World where
  emails : Nat → Email
  nextEmail : Nat
  users : Nat → User
  inboxes : String → Option Inbox

/-- The struct `smtpSession` (`smtp.go:21-24`): the pointer `email`; `backend` is the
one store of the world. -/
structure smtpSession where
  email : Nat
  deriving DecidableEq, Repr

/-- The function `newStore` (`store.go:31-35`) on fresh memory. -/
def newStore (users : Nat → User) : World :=
  { emails := fun _ => ⟨"", "", []⟩, nextEmail := 0, users := users, inboxes := fun _ => none }

/-- The method `store.AddUser` (`store.go:60-65`). -/
def World.AddUser (w : World) (mailAddr : String) (user : Nat) : World :=
  { w with inboxes := fun a => if a = mailAddr then some ⟨user, []⟩ else w.inboxes a }

/-- The method `store.Add` (`store.go:38-48`); `Except.error` is the panic. The error
returned by `Append` is dropped, as in the source. -/
def World.Add (w : World) (e : Nat) : Except String World :=
  match w.inboxes (w.emails e).to_ with
  | none => .error ("unknown inbox " ++ (w.emails e).to_)
  | some inbox =>
    let inbox1 : Inbox := { inbox with emails := inbox.emails ++ [e] }
    let key := (w.emails e).to_
    let appended := (w.users inbox.user).Append "INBOX" (w.emails e).data
    .ok { w with
      inboxes := fun a => if a = key then some inbox1 else w.inboxes a
      users := fun p => if p = inbox.user then appended.1 else w.users p }

/-- The method `store.List` (`store.go:51-58`): the pointers held by the inbox. -/
def World.List (w : World) (mailAddr : String) : Except String EmailPtrs :=
  match w.inboxes mailAddr with
  | none => .error "unknown inbox <nil>"
  | some inbox => .ok inbox.emails

/-- The emails of an inbox as they read through the pointers of `store.List`. -/
def listed (w : World) (mailAddr : String) : Except String (List Email) :=
  match w.List mailAddr with
  | .error msg => .error msg
  | .ok ptrs => .ok (ptrs.map w.emails)

/-- The method `smtpBackend.NewSession` (`smtp.go:14-19`): a session on a new, zero
`email`. -/
def World.NewSession (w : World) : World × smtpSession :=
  ({ w with
      emails := fun p => if p = w.nextEmail then ⟨"", "", []⟩ else w.emails p
      nextEmail := w.nextEmail + 1 },
    ⟨w.nextEmail⟩)

/-- The method `smtpSession.Mail` (`smtp.go:32-40`). -/
def smtpSession.Mail (s : smtpSession) (w : World) (from_ : String) : World × Err :=
  ({ w with
      emails := fun p => if p = s.email then { w.emails p with from_ := from_ } else w.emails p },
    none)

/-- The method `smtpSession.Rcpt` (`smtp.go:42-50`). -/
def smtpSession.Rcpt (s : smtpSession) (w : World) (to_ : String) : World × Err :=
  ({ w with
      emails := fun p => if p = s.email then { w.emails p with to_ := to_ } else w.emails p },
    none)

/-- The method `smtpSession.Data` (`smtp.go:52-67`); `r` is what `io.ReadAll(r)` gives. -/
def smtpSession.Data (s : smtpSession) (w : World) (r : Except GoError Bytes) :
    Except String (World × Err) :=
  match r with
  | .error err => .ok (w, some err)
  | .ok data =>
    let w1 : World :=
      { w with
        emails := fun p => if p = s.email then { w.emails p with data := data } else w.emails p }
    match w1.Add s.email with
    | .error msg => .error msg
    | .ok w2 => .ok (w2, none)

/-- The method `smtpSession.Reset` (`smtp.go:69`): its body is empty. -/
def smtpSession.Reset (_s : smtpSession) (w : World) : World := w

/-- One delivery: a new session, then `Mail`, `Rcpt` and `Data` on a reader over `d`. -/
def deliver (w : World) (from_ to_ : String) (d : Bytes) : Except String (World × Err) :=
  let (w0, s) := w.NewSession
  let (w1, _) := s.Mail w0 from_
  let (w2, _) := s.Rcpt w1 to_
  s.Data w2 (.ok d)

/-- Two deliveries over one connection: one session, then `Mail`, `Rcpt`, `Data` for the
first message, the `Reset` the server calls after a transaction, and `Mail`, `Rcpt`,
`Data` for the second. -/
def deliverTwice (w : World) (from1 to1 : String) (d1 : Bytes) (from2 to2 : String)
    (d2 : Bytes) : Except String (World × Err) :=
  let (w0, s) := w.NewSession
  let (w1, _) := s.Mail w0 from1
  let (w2, _) := s.Rcpt w1 to1
  match s.Data w2 (.ok d1) with
  | .error msg => .error msg
  | .ok (w3, _) =>
    let w4 := s.Reset w3
    let (w5, _) := s.Mail w4 from2
    let (w6, _) := s.Rcpt w5 to2
    s.Data w6 (.ok d2)

/-- Every `email` pointer held by an inbox has been allocated. -/
def World.WellFormed (w : World) : Prop :=
  ∀ a inbox, w.inboxes a = some inbox → ∀ p ∈ inbox.emails, p < w.nextEmail

/-- The store and the user as `run` sets them up (`main.go:107`, `main.go:135-143`):
the user, at pointer 0, gets its INBOX and is registered under `username@domain`;
`Except.error` is the error `run` returns when `Create` fails. -/
def setupStore (ss : Settings) : Except GoError World :=
  let store := newStore (fun _ => ⟨fun _ => none⟩)
  if ss.username ≠ "" || ss.password ≠ "" then
    let created := (store.users 0).Create "INBOX"
    match created.2 with
    | some err => .error (.wrap ("failed to create user: " ++ err.Error) err)
    | none =>
      let store : World :=
        { store with users := fun p => if p = 0 then created.1 else store.users p }
      .ok (store.AddUser (ss.username ++ "@" ++ ss.domain) 0)
  else
    .ok store

/-! ## The debug writer in `run` -/

/-- A non-nil `io.Writer`. -/
structure WriterRef where
  id : Nat
  deriving DecidableEq, Repr

/-- A value of the interface type `io.Writer`; `none` is `nil`. -/
abbrev Writer := Option WriterRef

/-- The struct `config` (`main.go:75-79`). -/
structure Config where
  settings : Settings
  debugWriter : Writer
  deriving DecidableEq, Repr

/-- The fields of `smtp.Server` that `run` sets. -/
structure SmtpServer where
  Addr : String
  Domain : String
  AllowInsecureAuth : Bool
  Debug : Writer
  deriving DecidableEq, Repr

/-- The fields of `imapserver.Options` that `run` sets from its flags. -/
structure ImapOptions where
  InsecureAuth : Bool
  DebugWriter : Writer
  deriving DecidableEq, Repr

/-- What `run` has built when the servers are configured. -/
structure Wiring where
  c : Config
  smtpServer : SmtpServer
  imapOptions : ImapOptions
  deriving DecidableEq, Repr

/-- The function `run`, `main.go:100-156`, for the settings `ss` left by `flagSet.Parse(args)`. The
local `debugWriter` is declared at line 102 and never assigned. -/
def wire (ss : Settings) (debugOut : Writer) : Wiring :=
  let c : Config := { settings := ⟨"", "", "", "", "", "", "", "", false, false⟩, debugWriter := none }
  let debugWriter : Writer := none
  let c : Config := if ss.debug then { c with debugWriter := debugOut } else c
  let smtpServer : SmtpServer :=
    { Addr := ss.smtpAddr, Domain := "localhost", AllowInsecureAuth := ss.insecureAuth,
      Debug := debugWriter }
  let imapOptions : ImapOptions :=
    { InsecureAuth := ss.insecureAuth, DebugWriter := debugWriter }
  { c := c, smtpServer := smtpServer, imapOptions := imapOptions }

/-- The debug writers `run` would hand over if the flag were wired as its help text
says (print all commands and responses): `debugOut` with `-debug`, `nil` without. -/
def intendedDebugWriter (ss : Settings) (debugOut : Writer) : Writer :=
  if ss.debug then debugOut else none

/-! ## Concrete inputs -/

/-- The settings of `run` when no flag is given: the literal of `main.go:86-89` and the
defaults of `defineFlags`. -/
def defaultSettings : Settings :=
  { smtpAddr := "127.0.0.1:31025", imapAddr := "127.0.0.1:30143", imapsAddr := "",
    tlsCert := "", tlsKey := "", username := "user", password := "user",
    domain := "localhost", insecureAuth := false, debug := false }

/-- The settings of `TestRun` (`main_test.go:31-38`). -/
def testSettings : Settings :=
  { defaultSettings with
    smtpAddr := "localhost:31025", imapAddr := "127.0.0.1:30143", username := "user",
    password := "pass", domain := "example.com", insecureAuth := true }

/-- The message `TestRun` sends, as the SMTP server reads it: the bytes of
`To: user@example.com`, `Subject: Hello`, an empty line and `World`, each line ended by
carriage return and line feed. -/
def testMessage : Bytes :=
  [84, 111, 58, 32, 117, 115, 101, 114, 64, 101, 120, 97, 109, 112, 108, 101, 46, 99, 111,
    109, 13, 10, 83, 117, 98, 106, 101, 99, 116, 58, 32, 72, 101, 108, 108, 111, 13, 10,
    13, 10, 87, 111, 114, 108, 100, 13, 10]

/-- Engines whose listeners block until they are shut down, with an SMTP shutdown that
succeeds and an `imapServer.Close()` that never returns. -/
def stuckCloseEngines : Engines :=
  { smtpListenAndServe := .hangs, smtpShutdown := fun _ => .returns none,
    imapListenAndServe := fun _ => .hangs, imapListenAndServeTLS := fun _ => .hangs,
    imapClose := .hangs, imapsClose := .hangs }

/-- Every runner of the list takes the cancellation case of its `select`. -/
def allCancelled (svcs : List Service) : List (Service × Race) :=
  svcs.map (fun svc => (svc, Race.cancelFirst))

/-! ## The combined result of `run` -/

theorem foldl_diagnostics (results : List Err) (acc : List String) :
    results.foldl
        (fun diagnostics err =>
          match err with
          | some e => diagnostics ++ [e.Error]
          | none => diagnostics)
        acc
      = acc ++ nonNilMessages results := by
  induction results generalizing acc with
  | nil => simp [nonNilMessages]
  | cons err rest ih =>
    cases err with
    | none => simp [nonNilMessages, ih]
    | some e => simp [ih, nonNilMessages]

theorem collectDiagnostics_eq (results : List Err) :
    collectDiagnostics results = nonNilMessages results := by
  simp [collectDiagnostics, foldl_diagnostics]

theorem nonNilMessages_eq_nil (results : List Err) :
    nonNilMessages results = [] ↔ ∀ err ∈ results, err = none := by
  induction results with
  | nil => simp [nonNilMessages]
  | cons err rest ih =>
    cases err with
    | none => simp [nonNilMessages]
    | some e => simp [nonNilMessages]

theorem runResult_eq (results : List Err) :
    runResult results =
      if nonNilMessages results = [] then none
      else some (.plain ("errors encountered: " ++ stringsJoin (nonNilMessages results) "\n")) := by
  unfold runResult
  rw [collectDiagnostics_eq]
  cases results with
  | nil => simp [nonNilMessages]
  | cons err rest =>
    by_cases h : nonNilMessages (err :: rest) = []
    · simp [h]
    · have hpos : 0 < (nonNilMessages (err :: rest)).length := List.length_pos.mpr h
      simp [h, hpos]

/-- C1: for every sequence of collected outcomes, `run` returns nil exactly when every
outcome is nil, and returns a non-nil error exactly when some outcome is non-nil. -/
theorem run_success_iff_all_nil (results : List Err) :
    (runResult results = none ↔ ∀ err ∈ results, err = none) ∧
    ((∃ e, runResult results = some e) ↔ ∃ err ∈ results, err ≠ none) := by
  have key : runResult results = none ↔ ∀ err ∈ results, err = none := by
    rw [runResult_eq, ← nonNilMessages_eq_nil]
    by_cases h : nonNilMessages results = [] <;> simp [h]
  refine ⟨key, ?_⟩
  constructor
  · rintro ⟨e, he⟩
    by_contra hno
    push_neg at hno
    have := key.mpr hno
    rw [this] at he
    cases he
  · rintro ⟨err, hmem, hne⟩
    cases hr : runResult results with
    | some e => exact ⟨e, rfl⟩
    | none => exact absurd (key.mp hr err hmem) hne

/-- The loop of the library `String.intercalate` is a left fold that appends the
separator and the next element. -/
theorem intercalate_go_foldl (sep : String) (rest : List String) (acc : String) :
    String.intercalate.go acc sep rest = rest.foldl (fun acc msg => acc ++ sep ++ msg) acc := by
  induction rest generalizing acc with
  | nil => rfl
  | cons c rest ih => rw [String.intercalate.go, ih]; rfl

/-- The loop of `strings.Join` from its accumulator on. -/
theorem intercalate_go_eq (sep : String) (rest : List String) (acc b : String) :
    String.intercalate.go acc sep (b :: rest) = acc ++ sep ++ stringsJoin (b :: rest) sep := by
  induction rest generalizing acc b with
  | nil => simp [String.intercalate.go, stringsJoin]
  | cons c rest ih =>
    rw [String.intercalate.go, ih, stringsJoin]
    simp [String.append_assoc]

/-- The function `strings.Join` puts the separator between consecutive elements: it is
the library `String.intercalate`. -/
theorem stringsJoin_eq_intercalate (elems : List String) (sep : String) :
    stringsJoin elems sep = sep.intercalate elems := by
  cases elems with
  | nil => rfl
  | cons a rest =>
    cases rest with
    | nil => rfl
    | cons b rest =>
      rw [String.intercalate, intercalate_go_eq, stringsJoin]

/-- C2: when some collected outcome is non-nil, the diagnostics built by `run` are the
messages of the non-nil outcomes in arrival order, nothing else, and `run` returns one
error whose message is "errors encountered: " followed by those messages with one
newline between each two neighbours: the first message, then a newline and the next
message for every further one. -/
theorem run_diagnostics_in_order (results : List Err)
    (h : ∃ err ∈ results, err ≠ none) :
    collectDiagnostics results = results.filterMap (fun err => err.map GoError.Error) ∧
    runResult results =
      some (.plain ("errors encountered: " ++
        "\n".intercalate (results.filterMap (fun err => err.map GoError.Error)))) ∧
    (∀ e, runResult results = some e →
      e.Error = "errors encountered: " ++
        "\n".intercalate (results.filterMap (fun err => err.map GoError.Error))) ∧
    (∃ first rest, results.filterMap (fun err => err.map GoError.Error) = first :: rest ∧
      runResult results =
        some (.plain ("errors encountered: " ++
          rest.foldl (fun acc msg => acc ++ "\n" ++ msg) first))) := by
  have hne : nonNilMessages results ≠ [] := by
    intro hnil
    obtain ⟨err, hmem, hne⟩ := h
    exact hne ((nonNilMessages_eq_nil results).mp hnil err hmem)
  have hr := runResult_eq results
  rw [if_neg hne, stringsJoin_eq_intercalate] at hr
  refine ⟨collectDiagnostics_eq results, hr, ?_, ?_⟩
  · intro e he
    rw [hr] at he
    cases he
    rfl
  · cases hm : nonNilMessages results with
    | nil => exact absurd hm hne
    | cons first rest =>
      refine ⟨first, rest, hm, ?_⟩
      rw [hr]
      rw [hm, String.intercalate, intercalate_go_foldl]

/-- Outcomes a, nil, b: the messages keep their order and the newline stands between
them only. -/
theorem run_diagnostics_in_order_witness :
    (∃ err ∈ [some (GoError.plain "a"), none, some (GoError.plain "b")], err ≠ none) ∧
    runResult [some (GoError.plain "a"), none, some (GoError.plain "b")] =
      some (.plain "errors encountered: a\nb") := by
  have hex : ∃ err ∈ [some (GoError.plain "a"), none, some (GoError.plain "b")], err ≠ none :=
    ⟨some (.plain "a"), by simp, by simp⟩
  refine ⟨hex, ?_⟩
  have h := (run_diagnostics_in_order _ hex).2.1
  rw [h]
  decide

/-! ## The runner -/

/-- C3: when `start()` returns before cancellation is observed, the one outcome of the
runner is nil if `start()` returned nil and otherwise the error "failed to start
name: msg" wrapping the error of `start()`; `stop()` is not invoked and the outcome is
the same whatever `stop()` would do. -/
theorem runAsync_start_returns_first (name : String) (e : GoError) (stop : Call) :
    (runAsync .startFirst name (.returns none) stop).ret = .returns none ∧
    (runAsync .startFirst name (.returns (some e)) stop).ret =
      .returns (some (.wrap ("failed to start " ++ name ++ ": " ++ e.Error) e)) ∧
    (GoError.wrap ("failed to start " ++ name ++ ": " ++ e.Error) e).Unwrap = some e ∧
    (GoError.wrap ("failed to start " ++ name ++ ": " ++ e.Error) e).Error =
      "failed to start " ++ name ++ ": " ++ e.Error ∧
    (∀ startErr : Err,
      Event.stopInvoked ∉ (runAsync .startFirst name (.returns startErr) stop).events ∧
      (runAsync .startFirst name (.returns startErr) stop).events.count Event.startInvoked = 1 ∧
      ∀ stop2 : Call,
        runAsync .startFirst name (.returns startErr) stop2 =
          runAsync .startFirst name (.returns startErr) stop) := by
  refine ⟨rfl, rfl, rfl, rfl, ?_⟩
  intro startErr
  refine ⟨?_, ?_, fun _ => rfl⟩
  · simp [runAsync, cancellableRun, startClosure]
  · simp [runAsync, cancellableRun, startClosure]

/-- C4: when cancellation wins the race, the runner invokes `stop()` once and its one
outcome is nil if `stop()` returned nil and otherwise the error "failed to stop
name: msg" wrapping the error of `stop()`; whatever `start()` does or returns, the
outcome is the same, so no start error is recorded. -/
theorem runAsync_cancel_first (name : String) (e : GoError) (start : Call) :
    (runAsync .cancelFirst name start (.returns none)).ret = .returns none ∧
    (runAsync .cancelFirst name start (.returns (some e))).ret =
      .returns (some (.wrap ("failed to stop " ++ name ++ ": " ++ e.Error) e)) ∧
    (GoError.wrap ("failed to stop " ++ name ++ ": " ++ e.Error) e).Unwrap = some e ∧
    (GoError.wrap ("failed to stop " ++ name ++ ": " ++ e.Error) e).Error =
      "failed to stop " ++ name ++ ": " ++ e.Error ∧
    (∀ stop : Call,
      (runAsync .cancelFirst name start stop).events.count Event.stopInvoked = 1 ∧
      ∀ start2 : Call,
        (runAsync .cancelFirst name start2 stop).ret =
          (runAsync .cancelFirst name start stop).ret) := by
  refine ⟨rfl, rfl, rfl, rfl, ?_⟩
  intro stop
  refine ⟨?_, fun _ => rfl⟩
  simp [runAsync, cancellableRun, startClosure, stopClosure]

/-! ## The aggregation loop -/

theorem cancel_done (c : CancelCtx) : c.cancel.done = true := by
  unfold CancelCtx.cancel CancelCtx.done
  by_cases h : c.err.isSome = true <;> simp [h]

theorem cancel_of_done (c : CancelCtx) (h : c.done = true) : c.cancel = c := by
  unfold CancelCtx.done at h
  simp [CancelCtx.cancel, h]

theorem cancel_cancel (c : CancelCtx) : c.cancel.cancel = c.cancel :=
  cancel_of_done _ (cancel_done c)

theorem loopBody_results (want : Nat) (s : AggState) (err : Err) :
    (loopBody want s err).results = s.results ++ [err] := by
  unfold loopBody
  dsimp only
  split_ifs <;> rfl

theorem loopBody_ctx (want : Nat) (s : AggState) (err : Err) :
    (loopBody want s err).ctx = s.ctx.cancel := by
  unfold loopBody
  dsimp only
  split_ifs <;> rfl

theorem loopBody_receiving (want : Nat) (s : AggState) (err : Err) :
    (loopBody want s err).status = .receiving ↔ s.results.length + 1 < want := by
  unfold loopBody
  simp only [List.length_append, List.length_singleton, beq_iff_eq]
  split_ifs with h1 h2
  · simp; omega
  · simp; omega
  · simp; omega

theorem loopBody_stopped (want : Nat) (s : AggState) (err : Err) :
    (loopBody want s err).status = .stopped ↔ s.results.length + 1 = want := by
  unfold loopBody
  simp only [List.length_append, List.length_singleton, beq_iff_eq]
  split_ifs with h1 h2
  · simp [h1]
  · simp [h1]
  · simp [h1]

theorem loopBody_panicked (want : Nat) (s : AggState) (err : Err) :
    (∃ msg, (loopBody want s err).status = .panicked msg) ↔ want < s.results.length + 1 := by
  unfold loopBody
  simp only [List.length_append, List.length_singleton, beq_iff_eq]
  split_ifs with h1 h2
  · simp; omega
  · simp; omega
  · simp; omega

/-- Every state of the trace carries the context as one `cancel` leaves it. -/
theorem aggregateTrace_ctx (want : Nat) (stream : List Err) (s0 : AggState) :
    ∀ s ∈ aggregateTrace want s0 stream, s.ctx = s0.ctx.cancel := by
  induction stream generalizing s0 with
  | nil => simp [aggregateTrace]
  | cons err rest ih =>
    intro s hs
    simp only [aggregateTrace, List.mem_cons] at hs
    rcases hs with rfl | hs
    · exact loopBody_ctx want s0 err
    · split_ifs at hs with hrec
      · have := ih (loopBody want s0 err) s hs
        rw [this, loopBody_ctx, cancel_cancel]
      · simp at hs

/-- The states of the loop, iteration by iteration, from a state that has room left. -/
theorem aggregateTrace_get (want : Nat) (stream : List Err) (s0 : AggState)
    (hroom : s0.results.length < want)
    (k : Nat) (s : AggState) (h : (aggregateTrace want s0 stream)[k]? = some s) :
    s.results = s0.results ++ stream.take (k + 1) ∧ k < stream.length ∧
    (s.status = .stopped ↔ s.results.length = want) ∧
    (s.status = .receiving ↔ s.results.length < want) ∧
    (∀ msg, s.status ≠ .panicked msg) := by
  induction stream generalizing s0 k with
  | nil => simp [aggregateTrace] at h
  | cons err rest ih =>
    simp only [aggregateTrace] at h
    cases k with
    | zero =>
      simp only [List.getElem?_cons_zero, Option.some.injEq] at h
      subst h
      have hres := loopBody_results want s0 err
      refine ⟨by simpa using hres, by simp, ?_, ?_, ?_⟩
      · rw [loopBody_stopped, hres]; simp
      · rw [loopBody_receiving, hres]; simp
      · intro msg hmsg
        have := (loopBody_panicked want s0 err).mp ⟨msg, hmsg⟩
        omega
    | succ k =>
      simp only [List.getElem?_cons_succ] at h
      split_ifs at h with hrec
      · have hroom1 : (loopBody want s0 err).results.length < want := by
          rw [loopBody_results]
          simpa using (loopBody_receiving want s0 err).mp hrec
        obtain ⟨h1, h2, h3, h4, h5⟩ := ih (loopBody want s0 err) hroom1 k h
        refine ⟨?_, by simpa using h2, h3, h4, h5⟩
        rw [h1, loopBody_results]
        simp
      · simp at h

theorem aggregateTrace_length (want : Nat) (stream : List Err) (s0 : AggState)
    (hroom : s0.results.length < want) :
    (aggregateTrace want s0 stream).length = min stream.length (want - s0.results.length) := by
  induction stream generalizing s0 with
  | nil => simp [aggregateTrace]
  | cons err rest ih =>
    simp only [aggregateTrace, List.length_cons]
    split_ifs with hrec
    · have hlt := (loopBody_receiving want s0 err).mp hrec
      have hroom1 : (loopBody want s0 err).results.length < want := by
        rw [loopBody_results]; simpa using hlt
      rw [ih _ hroom1, loopBody_results]
      simp only [List.length_append, List.length_singleton]
      omega
    · have hlt := mt (loopBody_receiving want s0 err).mpr hrec
      simp only [List.length_nil]
      omega

/-- With fewer arrivals than room left the loop is still receiving. -/
theorem aggregate_short (want : Nat) (stream : List Err) (s0 : AggState)
    (hrec : s0.status = .receiving)
    (hshort : s0.results.length + stream.length < want) :
    (aggregate want s0 stream).status = .receiving ∧
    (aggregate want s0 stream).results = s0.results ++ stream := by
  induction stream generalizing s0 with
  | nil => simp [aggregate, hrec]
  | cons err rest ih =>
    simp only [List.length_cons] at hshort
    have h1 : (loopBody want s0 err).status = .receiving :=
      (loopBody_receiving want s0 err).mpr (by omega)
    simp only [aggregate, h1, if_true]
    have := ih (loopBody want s0 err) h1 (by rw [loopBody_results]; simp; omega)
    rw [loopBody_results] at this
    simpa using this

/-- With at least as many arrivals as room left the loop leaves through `break`. -/
theorem aggregate_enough (want : Nat) (stream : List Err) (s0 : AggState)
    (hroom : s0.results.length < want)
    (henough : want ≤ s0.results.length + stream.length) :
    (aggregate want s0 stream).status = .stopped ∧
    (aggregate want s0 stream).results = s0.results ++ stream.take (want - s0.results.length) ∧
    (aggregate want s0 stream).ctx = s0.ctx.cancel := by
  induction stream generalizing s0 with
  | nil => simp at henough; omega
  | cons err rest ih =>
    simp only [List.length_cons] at henough
    by_cases hlast : s0.results.length + 1 = want
    · have h1 : (loopBody want s0 err).status = .stopped :=
        (loopBody_stopped want s0 err).mpr hlast
      have hsub : want - s0.results.length = 1 := by omega
      simp only [aggregate, h1]
      simp [loopBody_results, loopBody_ctx, hsub, h1]
    · have h1 : (loopBody want s0 err).status = .receiving :=
        (loopBody_receiving want s0 err).mpr (by omega)
      simp only [aggregate, h1, if_true]
      have hlen : (loopBody want s0 err).results.length = s0.results.length + 1 := by
        rw [loopBody_results]; simp
      obtain ⟨a, b, c⟩ := ih (loopBody want s0 err) (by omega) (by omega)
      refine ⟨a, ?_, ?_⟩
      · rw [b, hlen, loopBody_results]
        have hsub : want - s0.results.length = (want - (s0.results.length + 1)) + 1 := by omega
        rw [hsub]
        simp
      · rw [c, loopBody_ctx, cancel_cancel]

theorem init_results (ctx : CancelCtx) : (AggState.init ctx).results = [] := rfl

theorem runCollect_blocked (want : Nat) (ctx : CancelCtx) (arrivals : List Err)
    (hshort : arrivals.length < want) : runCollect want ctx arrivals = .blocked := by
  have h := (aggregate_short want arrivals (AggState.init ctx) rfl
    (by simpa [AggState.init] using hshort)).1
  simp [runCollect, h]

theorem runCollect_returned (want : Nat) (ctx : CancelCtx) (arrivals : List Err)
    (hwant : 1 ≤ want) (henough : want ≤ arrivals.length) :
    runCollect want ctx arrivals = .returned (runResult (arrivals.take want)) := by
  obtain ⟨h1, h2, _⟩ := aggregate_enough want arrivals (AggState.init ctx)
    (by simpa [AggState.init] using hwant) (by simpa [AggState.init] using henough)
  rw [init_results] at h2
  simp only [List.nil_append, List.length_nil, Nat.sub_zero] at h2
  simp [runCollect, h1, h2]

theorem startAll_length (plan : List (Service × Race)) :
    (startAll plan).length = plan.length := by
  induction plan with
  | nil => rfl
  | cons p rest ih => obtain ⟨svc, race⟩ := p; simp [startAll, ih]

theorem mem_startAll (plan : List (Service × Race)) (svc : Service) (race : Race)
    (h : (svc, race) ∈ plan) :
    runAsync race svc.name svc.start svc.stop ∈ startAll plan := by
  induction plan with
  | nil => simp at h
  | cons p rest ih =>
    obtain ⟨svc1, race1⟩ := p
    simp only [List.mem_cons, Prod.mk.injEq] at h
    rcases h with ⟨rfl, rfl⟩ | h
    · simp [startAll]
    · simp [startAll, ih h]

theorem emitted_length_le (runs : List Thunk) : (emitted runs).length ≤ runs.length := by
  induction runs with
  | nil => simp [emitted]
  | cons t rest ih =>
    unfold emitted
    cases t.ret with
    | returns err => simp; exact ih
    | hangs => simp; omega

theorem emitted_length_lt (runs : List Thunk) (t : Thunk) (hmem : t ∈ runs)
    (hhang : t.ret = .hangs) : (emitted runs).length < runs.length := by
  induction runs with
  | nil => simp at hmem
  | cons t1 rest ih =>
    simp only [List.mem_cons] at hmem
    rcases hmem with rfl | hmem
    · have := emitted_length_le rest
      simp only [emitted, hhang, List.length_cons]
      omega
    · have := ih hmem
      unfold emitted
      cases t1.ret with
      | returns err => simp; exact this
      | hangs => simp; omega

/-- C5: with `want >= 1`, after every iteration of the aggregation loop the collected
outcomes are the arrivals so far, in arrival order, and at most `want` of them; the
loop leaves through `break` at the iteration that makes them `want`, runs no iteration
after it, and never takes the `panic` branch. -/
theorem aggregation_bounded (want : Nat) (hwant : 1 ≤ want) (ctx : CancelCtx)
    (stream : List Err) :
    (aggregateTrace want (AggState.init ctx) stream).length = min stream.length want ∧
    (∀ k s, (aggregateTrace want (AggState.init ctx) stream)[k]? = some s →
      s.results = stream.take (k + 1) ∧ s.results.length = k + 1 ∧
      s.results.length ≤ want ∧
      (s.status = .stopped ↔ s.results.length = want) ∧
      (s.status = .receiving ↔ s.results.length < want) ∧
      ∀ msg, s.status ≠ .panicked msg) ∧
    ((aggregate want (AggState.init ctx) stream).status = .stopped ↔ want ≤ stream.length) ∧
    (aggregate want (AggState.init ctx) stream).results = stream.take want ∧
    (∀ msg, (aggregate want (AggState.init ctx) stream).status ≠ .panicked msg) := by
  have hroom : (AggState.init ctx).results.length < want := by simpa [AggState.init] using hwant
  refine ⟨?_, ?_, ?_⟩
  · simpa [AggState.init] using aggregateTrace_length want stream (AggState.init ctx) hroom
  · intro k s hk
    have hlen := aggregateTrace_length want stream (AggState.init ctx) hroom
    have hklt : k < (aggregateTrace want (AggState.init ctx) stream).length := by
      by_contra hge
      rw [List.getElem?_eq_none (by omega)] at hk
      cases hk
    obtain ⟨h1, h2, h3, h4, h5⟩ := aggregateTrace_get want stream (AggState.init ctx) hroom k s hk
    simp only [AggState.init, List.nil_append] at h1
    have hl : s.results.length = k + 1 := by
      rw [h1, List.length_take]; omega
    refine ⟨h1, hl, ?_, h3, h4, h5⟩
    rw [hlen] at hklt
    simp only [AggState.init, List.length_nil, Nat.sub_zero] at hklt
    omega
  · by_cases hen : want ≤ stream.length
    · obtain ⟨h1, h2, _⟩ := aggregate_enough want stream (AggState.init ctx) hroom
        (by simpa [AggState.init] using hen)
      rw [init_results] at h2
      simp only [List.nil_append, List.length_nil, Nat.sub_zero] at h2
      refine ⟨by simp [h1, hen], h2, ?_⟩
      intro msg hmsg
      rw [h1] at hmsg
      cases hmsg
    · obtain ⟨h1, h2⟩ := aggregate_short want stream (AggState.init ctx) rfl
        (by simp [AggState.init]; omega)
      rw [init_results] at h2
      simp only [List.nil_append] at h2
      refine ⟨by simp [h1, hen], ?_, ?_⟩
      · rw [h2, List.take_of_length_le (by omega)]
      · intro msg hmsg
        rw [h1] at hmsg
        cases hmsg

/-- Three arrivals for two services: two iterations run, the second one leaves. -/
theorem aggregation_bounded_witness :
    1 ≤ 2 ∧
    (aggregateTrace 2 (AggState.init ⟨none⟩) [some (.plain "x"), none, none]).length
      = min [some (GoError.plain "x"), none, none].length 2 :=
  ⟨by decide,
    (aggregation_bounded 2 (by decide) ⟨none⟩ [some (.plain "x"), none, none]).1⟩

/-- With `want >= 1` the `panic` branch of the loop is never taken: when more than
`want` outcomes are delivered the loop leaves through `break` at the `want`-th, and
`run` returns the result of the first `want` outcomes alone. -/
theorem panic_branch_dead (want : Nat) (ctx : CancelCtx) (stream : List Err)
    (hwant : 1 ≤ want) (hmore : want < stream.length) :
    (aggregate want (AggState.init ctx) stream).status = .stopped ∧
    (aggregate want (AggState.init ctx) stream).results = stream.take want ∧
    runCollect want ctx stream = .returned (runResult (stream.take want)) ∧
    runCollect want ctx stream = runCollect want ctx (stream.take want) ∧
    (∀ msg, runCollect want ctx stream ≠ .panicked msg) := by
  obtain ⟨h1, h2, _⟩ := aggregate_enough want stream (AggState.init ctx)
    (by simpa [AggState.init] using hwant) (by simp [AggState.init]; omega)
  rw [init_results] at h2
  simp only [List.nil_append, List.length_nil, Nat.sub_zero] at h2
  have hr := runCollect_returned want ctx stream hwant (by omega)
  have hr2 := runCollect_returned want ctx (stream.take want) hwant
    (by rw [List.length_take]; omega)
  rw [List.take_take, Nat.min_self] at hr2
  refine ⟨h1, h2, hr, by rw [hr, hr2], ?_⟩
  intro msg hmsg
  rw [hr] at hmsg
  cases hmsg

/-- C6 does not hold of the code: two services and three outcomes on `aggregaCh`, the
third from a runner that reports twice. The loop leaves through `break` at the second
outcome, before the test `len(results) > want` can see a third; `run` returns normally
with the first error alone, the extra outcome is never received, and no `panic`
happens, although the loop body does panic as soon as the length is above `want`. -/
theorem extra_outcome_not_fatal :
    2 < [some (GoError.plain "x"), none, some (GoError.plain "again")].length ∧
    (aggregate 2 (AggState.init ⟨none⟩)
      [some (.plain "x"), none, some (.plain "again")]).status = .stopped ∧
    (aggregate 2 (AggState.init ⟨none⟩)
      [some (.plain "x"), none, some (.plain "again")]).results = [some (.plain "x"), none] ∧
    runCollect 2 ⟨none⟩ [some (.plain "x"), none, some (.plain "again")] =
      .returned (some (.plain "errors encountered: x")) ∧
    (loopBody 2 ⟨[some (.plain "x"), none], ⟨some .canceled⟩, .receiving⟩
      (some (.plain "again"))).status =
        .panicked "encountered more than 2 results. Bug?" := by
  decide

/-- C7: every iteration triggers the cancellation, whether the outcome is an error or
nil; from the first collected outcome on the context is done, it is never reset, and
the context after any number of outcomes is the one a single trigger produced. -/
theorem cancellation_monotone_idempotent (want : Nat) (ctx0 : CancelCtx) (stream : List Err) :
    (∀ (s : AggState) (err : Err),
      (loopBody want s err).ctx = s.ctx.cancel ∧ (loopBody want s err).ctx.done = true) ∧
    (∀ s ∈ aggregateTrace want (AggState.init ctx0) stream,
      s.ctx.done = true ∧ s.ctx = ctx0.cancel) ∧
    (∀ c : CancelCtx, c.done = true → c.cancel = c) ∧
    (∀ c : CancelCtx, c.cancel.cancel = c.cancel) := by
  refine ⟨?_, ?_, cancel_of_done, cancel_cancel⟩
  · intro s err
    rw [loopBody_ctx]
    exact ⟨rfl, cancel_done _⟩
  · intro s hs
    have := aggregateTrace_ctx want stream (AggState.init ctx0) s hs
    simp only [AggState.init] at this
    rw [this]
    exact ⟨cancel_done _, rfl⟩

/-! ## Shutdown is not bounded by the runner -/

/-- C8, as stated, fails: with the default settings, cancellation observed by both
runners and an `imapServer.Close()` that never returns, the IMAP runner emits no
outcome at all (no timeout error), one outcome arrives for two services, and `run`
stays blocked in the aggregation loop. -/
theorem hanging_stop_blocks_run :
    (services defaultSettings stuckCloseEngines).length = 2 ∧
    (startAll (allCancelled (services defaultSettings stuckCloseEngines))).map Thunk.ret =
      [.returns none, .hangs] ∧
    emitted (startAll (allCancelled (services defaultSettings stuckCloseEngines))) = [none] ∧
    runCollect (services defaultSettings stuckCloseEngines).length ⟨some .canceled⟩ [none] =
      .blocked := by
  decide

/-- C8, amended: only the SMTP stop carries the bound of 5 seconds, as the timeout of
the context it hands to the server; the IMAP and IMAPs stops are `Close()` with no
bound. A cancelled runner returns what its `stop()` returns and nothing before it
returns: if `stop()` never returns the runner emits no outcome, fewer outcomes than
services arrive, and `run` stays blocked in the aggregation loop. -/
theorem stop_awaited_without_bound (ss : Settings) (eng : Engines) (ctx : CancelCtx)
    (plan : List (Service × Race)) (svc : Service) (arrivals : List Err)
    (hsvc : (svc, Race.cancelFirst) ∈ plan) (hhang : svc.stop = .hangs)
    (harr : arrivals.Perm (emitted (startAll plan))) :
    (services ss eng).map Service.stop =
      [eng.smtpShutdown 5, eng.imapClose] ++
        (if ss.imapsAddr ≠ "" then [eng.imapsClose] else []) ∧
    (∀ (name : String) (start stop : Call),
      (runAsync .cancelFirst name start stop).ret = (stopClosure name stop).ret) ∧
    (runAsync .cancelFirst svc.name svc.start svc.stop).ret = .hangs ∧
    arrivals.length < plan.length ∧
    runCollect plan.length ctx arrivals = .blocked := by
  have hret : (runAsync .cancelFirst svc.name svc.start svc.stop).ret = .hangs := by
    simp [runAsync, cancellableRun, stopClosure, hhang]
  have hlt : arrivals.length < plan.length := by
    rw [harr.length_eq, ← startAll_length plan]
    exact emitted_length_lt _ _ (mem_startAll plan svc _ hsvc) hret
  refine ⟨?_, fun _ _ _ => rfl, hret, hlt, runCollect_blocked _ _ _ hlt⟩
  unfold services
  by_cases h : ss.imapsAddr = "" <;> simp [h]

/-- The default services with an `imapServer.Close()` that never returns. -/
theorem stop_awaited_without_bound_witness :
    ((⟨"IMAP serer", .hangs, .hangs⟩ : Service), Race.cancelFirst) ∈
      allCancelled (services defaultSettings stuckCloseEngines) ∧
    [none].Perm (emitted (startAll (allCancelled (services defaultSettings stuckCloseEngines)))) ∧
    runCollect (allCancelled (services defaultSettings stuckCloseEngines)).length
      ⟨some .canceled⟩ [none] = .blocked :=
  ⟨by decide, by decide,
    (stop_awaited_without_bound defaultSettings stuckCloseEngines ⟨some .canceled⟩
      (allCancelled (services defaultSettings stuckCloseEngines))
      ⟨"IMAP serer", .hangs, .hangs⟩ [none] (by decide) rfl (by decide)).2.2.2.2⟩

/-! ## The debug writer -/

/-- C10 does not hold of the code: with `-debug` set and a writer passed to `run`, the
writer reaches `c.debugWriter` only; `Debug` of the SMTP server and `DebugWriter` of the
IMAP server are nil, as they are for every settings and every writer. -/
theorem debug_writer_never_wired :
    (wire { defaultSettings with debug := true } (some ⟨1⟩)).smtpServer.Debug = none ∧
    (wire { defaultSettings with debug := true } (some ⟨1⟩)).imapOptions.DebugWriter = none ∧
    (wire { defaultSettings with debug := true } (some ⟨1⟩)).c.debugWriter = some ⟨1⟩ ∧
    intendedDebugWriter { defaultSettings with debug := true } (some ⟨1⟩) = some ⟨1⟩ ∧
    (∀ (ss : Settings) (debugOut : Writer),
      (wire ss debugOut).smtpServer.Debug = none ∧
      (wire ss debugOut).imapOptions.DebugWriter = none ∧
      (wire ss debugOut).c.debugWriter = intendedDebugWriter ss debugOut) := by
  refine ⟨rfl, rfl, rfl, rfl, ?_⟩
  intro ss debugOut
  refine ⟨rfl, rfl, ?_⟩
  unfold wire intendedDebugWriter
  by_cases h : ss.debug = true <;> simp [h]

/-! ## Delivery -/

theorem deliver_eq (w : World) (from_ addr : String) (d : Bytes) (inbox : Inbox)
    (hreg : w.inboxes addr = some inbox) :
    deliver w from_ addr d = .ok
      ({ emails := fun p => if p = w.nextEmail then ⟨from_, addr, d⟩ else w.emails p
         nextEmail := w.nextEmail + 1
         users := fun p =>
           if p = inbox.user then ((w.users inbox.user).Append "INBOX" d).1 else w.users p
         inboxes := fun a =>
           if a = addr then some ⟨inbox.user, inbox.emails ++ [w.nextEmail]⟩
           else w.inboxes a },
        none) := by
  simp only [deliver, World.NewSession, smtpSession.Mail, smtpSession.Rcpt, smtpSession.Data,
    World.Add, if_true, hreg]
  have hcell : ∀ a b : Nat → Email, a = b →
      (⟨a, w.nextEmail + 1,
        fun p => if p = inbox.user then ((w.users inbox.user).Append "INBOX" d).1 else w.users p,
        fun a => if a = addr then some ⟨inbox.user, inbox.emails ++ [w.nextEmail]⟩
          else w.inboxes a⟩ : World) =
      ⟨b, w.nextEmail + 1,
        fun p => if p = inbox.user then ((w.users inbox.user).Append "INBOX" d).1 else w.users p,
        fun a => if a = addr then some ⟨inbox.user, inbox.emails ++ [w.nextEmail]⟩
          else w.inboxes a⟩ := by
    intro a b hab
    rw [hab]
  refine congrArg (fun x : World => (Except.ok (x, none) : Except String (World × Err)))
    (hcell _ _ ?_)
  funext p
  by_cases hp : p = w.nextEmail <;> simp [hp]

theorem append_inbox (u : User) (box : String) (d : Bytes) (msgs : List Bytes)
    (hbox : u.mailboxes box = some msgs) :
    (u.Append box d).1.mailboxes box = some (msgs ++ [d]) ∧
    (u.Append box d).2 = none ∧
    ∀ m, m ≠ box → (u.Append box d).1.mailboxes m = u.mailboxes m := by
  unfold User.Append
  rw [hbox]
  refine ⟨by simp, rfl, ?_⟩
  intro m hm
  simp [hm]

/-- No inbox of a new store holds a pointer. -/
theorem wellFormed_newStore (users : Nat → User) : (newStore users).WellFormed := by
  intro a ib hib
  simp [newStore] at hib

/-- Registering an address keeps every pointer allocated. -/
theorem wellFormed_AddUser (w : World) (mailAddr : String) (user : Nat)
    (hwf : w.WellFormed) : (w.AddUser mailAddr user).WellFormed := by
  intro a ib hib p hp
  simp only [World.AddUser] at hib
  split_ifs at hib with ha
  · simp only [Option.some.injEq] at hib
    subst hib
    simp at hp
  · exact hwf a ib hib p hp

/-- A new session keeps every pointer allocated. -/
theorem wellFormed_NewSession (w : World) (hwf : w.WellFormed) :
    w.NewSession.1.WellFormed := by
  intro a ib hib p hp
  have := hwf a ib hib p hp
  simp only [World.NewSession]
  omega

/-- What one delivery on a new session does to a store in which the recipient is
registered and has an INBOX: `d` becomes the last message of the INBOX and
`{from, addr, d}` the last listed email, with everything else as before. -/
theorem deliver_spec (w : World) (from_ addr : String) (d : Bytes) (inbox : Inbox)
    (msgs : List Bytes) (hwf : w.WellFormed) (hreg : w.inboxes addr = some inbox)
    (hbox : (w.users inbox.user).mailboxes "INBOX" = some msgs) :
    ∃ w1, deliver w from_ addr d = .ok (w1, none) ∧
      (w1.users inbox.user).mailboxes "INBOX" = some (msgs ++ [d]) ∧
      listed w addr = .ok (inbox.emails.map w.emails) ∧
      listed w1 addr = .ok (inbox.emails.map w.emails ++ [⟨from_, addr, d⟩]) ∧
      (∀ a, a ≠ addr → w1.inboxes a = w.inboxes a ∧ listed w1 a = listed w a) ∧
      (∀ p, p ≠ inbox.user → w1.users p = w.users p) ∧
      (∀ m, m ≠ "INBOX" →
        (w1.users inbox.user).mailboxes m = (w.users inbox.user).mailboxes m) ∧
      w1.WellFormed := by
  obtain ⟨ha1, _, ha3⟩ := append_inbox (w.users inbox.user) "INBOX" d msgs hbox
  have hold : ∀ (a : String) (ib : Inbox), w.inboxes a = some ib →
      ib.emails.map (fun p => if p = w.nextEmail then (⟨from_, addr, d⟩ : Email) else w.emails p)
        = ib.emails.map w.emails := by
    intro a ib hib
    apply List.map_congr_left
    intro p hp
    have := hwf a ib hib p hp
    simp [Nat.ne_of_lt this]
  refine ⟨_, deliver_eq w from_ addr d inbox hreg, ?_, ?_, ?_, ?_, ?_, ?_, ?_⟩
  · simpa using ha1
  · simp [listed, World.List, hreg]
  · simp [listed, World.List, hold addr inbox hreg]
  · intro a ha
    refine ⟨by simp [ha], ?_⟩
    simp only [listed, World.List, ha, if_false]
    cases hib : w.inboxes a with
    | none => rfl
    | some ib => simp [hold a ib hib]
  · intro p hp
    simp [hp]
  · intro m hm
    simpa using ha3 m hm
  · intro a ib hib p hp
    simp only at hib
    by_cases ha : a = addr
    · simp only [ha, if_true, Option.some.injEq] at hib
      subst hib
      simp only [List.mem_append, List.mem_singleton] at hp
      rcases hp with hp | hp
      · have := hwf addr inbox hreg p hp
        simp only
        omega
      · simp only
        omega
    · simp only [ha, if_false] at hib
      have := hwf a ib hib p hp
      simp only
      omega

theorem trimRightSlash_inbox : trimRightSlash "INBOX" = "INBOX" := by decide

/-- The store of `run` has no dangling pointer, holds the configured address, and the
user behind it has an empty INBOX. -/
theorem setupStore_spec (ss : Settings) (h : ss.username ≠ "" ∨ ss.password ≠ "") :
    ∃ w, setupStore ss = .ok w ∧ w.WellFormed ∧
      w.inboxes (ss.username ++ "@" ++ ss.domain) = some ⟨0, []⟩ ∧
      (w.users 0).mailboxes "INBOX" = some [] := by
  have hc : (ss.username ≠ "" || ss.password ≠ "") = true := by
    rcases h with h | h <;> simp [h]
  have hcreate : ((newStore (fun _ => ⟨fun _ => none⟩)).users 0).Create "INBOX" =
      (⟨fun m => if m = "INBOX" then some [] else none⟩, none) := by
    simp [newStore, User.Create, trimRightSlash_inbox]
  unfold setupStore
  simp only [hc, if_true, hcreate]
  refine ⟨_, rfl, ?_, ?_, ?_⟩
  · intro a ib hib p hp
    simp only [World.AddUser, newStore] at hib
    split_ifs at hib with ha
    simp only [Option.some.injEq] at hib
    subst hib
    simp at hp
  · simp [World.AddUser]
  · simp [World.AddUser]

/-- On the store `run` sets up, one delivery on a new session leaves the INBOX with
`d` alone, so the first message read back is the one that was sent. -/
theorem fresh_server_first_message (ss : Settings) (from_ : String) (d : Bytes)
    (h : ss.username ≠ "" ∨ ss.password ≠ "") :
    ∃ w w1, setupStore ss = .ok w ∧
      deliver w from_ (ss.username ++ "@" ++ ss.domain) d = .ok (w1, none) ∧
      (w1.users 0).mailboxes "INBOX" = some [d] ∧
      listed w1 (ss.username ++ "@" ++ ss.domain) =
        .ok [⟨from_, ss.username ++ "@" ++ ss.domain, d⟩] := by
  obtain ⟨w, hw, h1, h2, h3⟩ := setupStore_spec ss h
  obtain ⟨w1, hd, hi, _, hl, _⟩ :=
    deliver_spec w from_ (ss.username ++ "@" ++ ss.domain) d ⟨0, []⟩ [] h1 h2 h3
  exact ⟨w, w1, hw, hd, by simpa using hi, by simpa using hl⟩

/-- C9 does not hold of the code: on the store `run` sets up for `TestRun`, one session
delivers d1 from a@example.com and then d2 from b@example.com, both to
user@example.com. The INBOX holds d1 and d2, but `store.List` reads the second email
twice: the session keeps one `email`, `Reset` is empty, so the second transaction
rewrites the email the inbox already holds and the first one is gone. -/
theorem reused_session_rewrites_stored_email :
    ∃ w w1, setupStore testSettings = .ok w ∧
      deliverTwice w "a@example.com" "user@example.com" [100, 49]
        "b@example.com" "user@example.com" [100, 50] = .ok (w1, none) ∧
      (w1.users 0).mailboxes "INBOX" = some [[100, 49], [100, 50]] ∧
      w1.List "user@example.com" = .ok [0, 0] ∧
      listed w1 "user@example.com" =
        .ok [⟨"b@example.com", "user@example.com", [100, 50]⟩,
          ⟨"b@example.com", "user@example.com", [100, 50]⟩] ∧
      listed w1 "user@example.com" ≠
        .ok [⟨"a@example.com", "user@example.com", [100, 49]⟩,
          ⟨"b@example.com", "user@example.com", [100, 50]⟩] := by
  refine ⟨_, _, rfl, rfl, rfl, rfl, rfl, ?_⟩
  intro h
  have h1 : (Except.ok [⟨"b@example.com", "user@example.com", [100, 50]⟩,
        ⟨"b@example.com", "user@example.com", [100, 50]⟩] : Except String (List Email)) =
      .ok [⟨"a@example.com", "user@example.com", [100, 49]⟩,
        ⟨"b@example.com", "user@example.com", [100, 50]⟩] := h
  simp at h1

end Mailserver
